import Mathlib

/-!
# Verification of the stratum cache hierarchy simulator

A shallow embedding of `include/stratum/cache_sim.hpp`: a multi-level
set-associative cache simulator with write-allocate / write-back policy and
pluggable replacement.  The hierarchy is a linear chain of cache levels
terminating in a main-memory sentinel.  Since the per-level parameters
(`Sets`, `Ways`, `BlockSize`, `HitLatency`, the level name) are C++ template
parameters fixed at construction, we model a hierarchy as a static list of
`CacheConfig` (top first) plus a `MemCfg` for main memory, and thread the
mutable per-level state (`sets_`, policy recency data, counters) through the
operations as an explicit `List CacheState`.

Machine integers (`uint64_t` addresses, `size_t` counters) are modelled as
`Nat`; the arithmetic performed by the simulator never wraps for in-range
inputs, which is proved where a claim depends on it.

Calls a cache level issues to its next level are recorded as `Event`s, so
that delegation structure (a write miss delegates a *Load*; a dirty eviction
issues a write-back *Store*) is observable in the model.
-/

set_option autoImplicit false

namespace Stratum

/-- `AccessType` from cache_sim.hpp: `enum class AccessType { kLoad, kStore }`. -/
inductive AccessType where
  | kLoad
  | kStore
deriving Repr, DecidableEq

/-- `AccessResult` from cache_sim.hpp: the level that serviced the access and
the accumulated latency. -/
structure AccessResult where
  hit_level : String
  total_cycles : Nat
deriving Repr, DecidableEq

/-- `Cache::Line` from cache_sim.hpp: `{bool valid = false; bool dirty = false;
uint64_t tag = 0;}`. -/
structure Line where
  valid : Bool
  dirty : Bool
  tag : Nat
deriving Repr, DecidableEq

/-- The default-constructed `Line`. -/
def initLine : Line := ⟨false, false, 0⟩

/-- The compile-time parameters of one `Cache<Name, Next, Sets, Ways,
BlockSize, ReplacePolicy, HitLatency>` instantiation. -/
structure CacheConfig where
  name : String
  numSets : Nat
  ways : Nat
  blockSize : Nat
  hitLatency : Nat
deriving Repr, DecidableEq

/-- The parameters of `MainMemory<Name>`: its name and fixed latency. -/
structure MemCfg where
  name : String
  latency : Nat
deriving Repr, DecidableEq

/-- The mutable state of one cache level: `sets_` (a `Sets × Ways` matrix of
lines), the replacement-policy recency data (per set, a list of way indices,
most recently used first), and the `hits_` / `misses_` / `evictions_`
counters. -/
structure CacheState where
  lines : List (List Line)
  lru : List (List Nat)
  hits : Nat
  misses : Nat
  evictions : Nat
deriving Repr, DecidableEq

/-- The all-empty cache state, used as an out-of-range default. -/
def CacheState.empty : CacheState := ⟨[], [], 0, 0, 0⟩

instance : Inhabited CacheState := ⟨CacheState.empty⟩

/-- One call a cache level issues to the level below it: which level issued
it, whether it was a Load or a Store, and the address. -/
structure Event where
  level : String
  type : AccessType
  addr : Nat
deriving Repr, DecidableEq

/-- `set_idx = (addr / BlockSize) % Sets` (Cache::Load / Cache::Store). -/
def setIndexOf (cfg : CacheConfig) (addr : Nat) : Nat :=
  (addr / cfg.blockSize) % cfg.numSets

/-- `tag = addr / (BlockSize * Sets)` (Cache::Load / Cache::Store). -/
def tagOf (cfg : CacheConfig) (addr : Nat) : Nat :=
  addr / (cfg.blockSize * cfg.numSets)

/-- `evict_addr = (victim.tag * Sets + set_idx) * BlockSize` (Cache::Fill). -/
def evictAddrOf (cfg : CacheConfig) (tag setIdx : Nat) : Nat :=
  (tag * cfg.numSets + setIdx) * cfg.blockSize

/-- The tag-lookup loop of Cache::Load / Cache::Store: index of the first way
whose line is valid and whose tag matches, if any. -/
def findHitWay (tag : Nat) : List Line → Option Nat
  | [] => none
  | l :: ls =>
    if l.valid && l.tag == tag then some 0
    else (findHitWay tag ls).map (· + 1)

/-- The first loop of Cache::Fill: index of the first invalid way, if any. -/
def findFreeWay : List Line → Option Nat
  | [] => none
  | l :: ls =>
    if l.valid then (findFreeWay ls).map (· + 1)
    else some 0

/-- Modelled from the spec: `policies.hpp` (the `LRUPolicy` used as
`ReplacePolicy`) is not part of the sources; spec §4.2 describes an LRU
policy keeping, per set, a recency ordering over way indices.
`OnHit(set,way)` / `OnFill(set,way)` mark `way` most recently used; here the
per-set ordering is a list of way indices, most recently used first. -/
def LRUPolicy.Touch (order : List Nat) (way : Nat) : List Nat :=
  way :: order.filter (fun x => x != way)

/-- Modelled from the spec: `GetVictim(set)` of the LRU policy returns the
least-recently-used way, i.e. the last way in the recency ordering. -/
def LRUPolicy.GetVictim (order : List Nat) : Nat :=
  (order.getLast?).getD 0

/-- Replace the element at index `i` by `f` applied to it; identity when `i`
is out of range (models in-range vector indexing). -/
def modifyIdx {α : Type} (i : Nat) (f : α → α) : List α → List α
  | [] => []
  | x :: xs =>
    match i with
    | 0 => f x :: xs
    | n + 1 => x :: modifyIdx n f xs

/-- The victim-selection part of Cache::Fill: the first invalid way if one
exists, otherwise the way returned by `Policy.GetVictim`.  The boolean
records whether the replacement policy was consulted. -/
def chooseVictim (ls : List Line) (order : List Nat) : Nat × Bool :=
  match findFreeWay ls with
  | some w => (w, false)
  | none => (LRUPolicy.GetVictim order, true)

/-- Cache::Fill without the recursive write-back call: picks the victim way,
computes the write-back address if the victim line is valid and dirty
(incrementing `evictions_` exactly then), overwrites the victim line with
`{valid := true, tag, dirty := false}` and notifies the policy.  The returned
`Option Nat` is the address the caller must forward as a Store to the next
level (`next_->Store(evict_addr)` in Fill). -/
def Fill (cfg : CacheConfig) (st : CacheState) (setIdx tag : Nat) :
    CacheState × Option Nat :=
  let ls := st.lines.getD setIdx []
  let vc := chooseVictim ls (st.lru.getD setIdx [])
  let victim := ls.getD vc.1 initLine
  let evictedAddr : Option Nat :=
    if vc.2 && victim.valid && victim.dirty then
      some (evictAddrOf cfg victim.tag setIdx)
    else none
  let newLine : Line := ⟨true, false, tag⟩
  ({ st with
      lines := modifyIdx setIdx (fun s => s.set vc.1 newLine) st.lines
      lru := modifyIdx setIdx (fun o => LRUPolicy.Touch o vc.1) st.lru
      evictions := st.evictions + (if evictedAddr.isSome then 1 else 0) },
   evictedAddr)

/-- The final loop of Cache::Store on a write miss: after Fill, scan the set
again for the (newly installed) line with the given tag and mark the first
match dirty. -/
def MarkDirty (setIdx tag : Nat) (st2 : CacheState) : CacheState :=
  match findHitWay tag (st2.lines.getD setIdx []) with
  | some w => { st2 with
      lines := modifyIdx setIdx
        (fun s => modifyIdx w (fun l => { l with dirty := true }) s)
        st2.lines }
  | none => st2

mutual

/-- Cache::Load / MainMemory::Load over the whole chain below a given point:
`cfgs` are the cache levels (top first) and `sts` their states.  Returns the
`AccessResult`, the updated states, and the list of calls each level issued
to the level below it, in issue order. -/
def Load : List CacheConfig → MemCfg → List CacheState → Nat →
    AccessResult × List CacheState × List Event
  | [], mem, _, _ => (⟨mem.name, mem.latency⟩, [], [])
  | cfg :: rest, mem, sts, addr =>
    let st := sts.headD CacheState.empty
    let below := sts.tail
    let setIdx := setIndexOf cfg addr
    let tag := tagOf cfg addr
    match findHitWay tag (st.lines.getD setIdx []) with
    | some way =>
      let st1 := { st with
        hits := st.hits + 1
        lru := modifyIdx setIdx (fun o => LRUPolicy.Touch o way) st.lru }
      (⟨cfg.name, cfg.hitLatency⟩, st1 :: below, [])
    | none =>
      let res := Load rest mem below addr
      let fl := Fill cfg { st with misses := st.misses + 1 } setIdx tag
      match fl.2 with
      | none =>
        (⟨res.1.hit_level, res.1.total_cycles + cfg.hitLatency⟩,
         fl.1 :: res.2.1,
         ⟨cfg.name, AccessType.kLoad, addr⟩ :: res.2.2)
      | some ea =>
        let wb := Store rest mem res.2.1 ea
        (⟨res.1.hit_level, res.1.total_cycles + cfg.hitLatency⟩,
         fl.1 :: wb.2.1,
         ⟨cfg.name, AccessType.kLoad, addr⟩ ::
           (res.2.2 ++ ⟨cfg.name, AccessType.kStore, ea⟩ :: wb.2.2))

/-- Cache::Store / MainMemory::Store over the whole chain below a given
point.  On a hit the matching line is marked dirty; on a miss
(write-allocate) a Load is delegated to the next level, the line is filled,
and then the newly filled line is marked dirty. -/
def Store : List CacheConfig → MemCfg → List CacheState → Nat →
    AccessResult × List CacheState × List Event
  | [], mem, _, _ => (⟨mem.name, mem.latency⟩, [], [])
  | cfg :: rest, mem, sts, addr =>
    let st := sts.headD CacheState.empty
    let below := sts.tail
    let setIdx := setIndexOf cfg addr
    let tag := tagOf cfg addr
    match findHitWay tag (st.lines.getD setIdx []) with
    | some way =>
      let st1 := { st with
        hits := st.hits + 1
        lines := modifyIdx setIdx
          (fun s => modifyIdx way (fun l => { l with dirty := true }) s)
          st.lines
        lru := modifyIdx setIdx (fun o => LRUPolicy.Touch o way) st.lru }
      (⟨cfg.name, cfg.hitLatency⟩, st1 :: below, [])
    | none =>
      let res := Load rest mem below addr
      let fl := Fill cfg { st with misses := st.misses + 1 } setIdx tag
      match fl.2 with
      | none =>
        (⟨res.1.hit_level, res.1.total_cycles + cfg.hitLatency⟩,
         MarkDirty setIdx tag fl.1 :: res.2.1,
         ⟨cfg.name, AccessType.kLoad, addr⟩ :: res.2.2)
      | some ea =>
        let wb := Store rest mem res.2.1 ea
        (⟨res.1.hit_level, res.1.total_cycles + cfg.hitLatency⟩,
         MarkDirty setIdx tag fl.1 :: wb.2.1,
         ⟨cfg.name, AccessType.kLoad, addr⟩ ::
           (res.2.2 ++ ⟨cfg.name, AccessType.kStore, ea⟩ :: wb.2.2))

end

/-- The state a cache level has right after the variadic constructor ran:
every line default-constructed (invalid), the LRU recency order the initial
ordering over ways, all counters zero. -/
def initState (cfg : CacheConfig) : CacheState :=
  { lines := List.replicate cfg.numSets (List.replicate cfg.ways initLine)
    lru := List.replicate cfg.numSets (List.range cfg.ways)
    hits := 0
    misses := 0
    evictions := 0 }

/-- Initial states of a whole chain of cache levels. -/
def initStates (cfgs : List CacheConfig) : List CacheState :=
  cfgs.map initState

/-- The configured names of the levels of a chain, top first, main memory
last. -/
def levelNames (cfgs : List CacheConfig) (mem : MemCfg) : List String :=
  cfgs.map (fun c => c.name) ++ [mem.name]

/-- The sum of the `HitLatency` parameters of a chain of cache levels. -/
def latSum (cfgs : List CacheConfig) : Nat :=
  (cfgs.map (fun c => c.hitLatency)).sum

/-- The write-back Stores a given level issued to the level below it, in
issue order, projected to their addresses. -/
def writeBacks (name : String) (evs : List Event) : List Nat :=
  (evs.filter (fun e => e.level == name && e.type == AccessType.kStore)).map
    (fun e => e.addr)

/-! ## Basic lemmas about the helper functions -/

theorem modifyIdx_length {α : Type} (i : Nat) (f : α → α) (xs : List α) :
    (modifyIdx i f xs).length = xs.length := by
  induction xs generalizing i with
  | nil => simp [modifyIdx]
  | cons x xs ih =>
    cases i with
    | zero => rfl
    | succ n => simpa [modifyIdx] using ih n

theorem getD_modifyIdx_self {α : Type} (i : Nat) (f : α → α) (xs : List α)
    (d : α) (h : i < xs.length) :
    (modifyIdx i f xs).getD i d = f (xs.getD i d) := by
  induction xs generalizing i with
  | nil => simp at h
  | cons x xs ih =>
    cases i with
    | zero => rfl
    | succ n =>
      simp only [modifyIdx, List.getD_cons_succ]
      exact ih n (by simpa using h)

theorem getD_modifyIdx_ne {α : Type} (i j : Nat) (f : α → α) (xs : List α)
    (d : α) (h : j ≠ i) :
    (modifyIdx i f xs).getD j d = xs.getD j d := by
  induction xs generalizing i j with
  | nil => simp [modifyIdx]
  | cons x xs ih =>
    cases i with
    | zero =>
      cases j with
      | zero => exact absurd rfl h
      | succ m => rfl
    | succ n =>
      cases j with
      | zero => rfl
      | succ m =>
        simp only [modifyIdx, List.getD_cons_succ]
        exact ih n m (by omega)

theorem findHitWay_eq_none {t : Nat} {ls : List Line} :
    findHitWay t ls = none ↔ ∀ l ∈ ls, ¬(l.valid = true ∧ l.tag = t) := by
  induction ls with
  | nil => simp [findHitWay]
  | cons l ls ih =>
    by_cases hl : (l.valid && l.tag == t) = true
    · simp only [Bool.and_eq_true, beq_iff_eq] at hl
      simp [findHitWay, hl]
    · rw [Bool.not_eq_true] at hl
      cases hfw : findHitWay t ls with
      | some w =>
        have hx := ih.not.mp (by simp [hfw])
        push_neg at hx
        simp only [findHitWay, hl, hfw]
        simp only [Bool.false_eq_true, if_false, Option.map_some,
          List.mem_cons]
        constructor
        · intro h
          exact absurd h (by simp)
        · intro h
          obtain ⟨x, hx1, hx2, hx3⟩ := hx
          exact absurd ⟨hx2, hx3⟩ (h x (Or.inr hx1))
      | none =>
        simp only [findHitWay, hl, hfw]
        simp only [Bool.false_eq_true, if_false, Option.map_none, true_iff,
          List.mem_cons]
        constructor
        · intro _ x hx
          rcases hx with hx | hx
          · subst hx
            intro ⟨h1, h2⟩
            rw [h1, h2] at hl
            simp at hl
          · exact (ih.mp hfw) x hx
        · intro _
          rfl

theorem findHitWay_eq_some {t : Nat} {ls : List Line} {w : Nat}
    (h : findHitWay t ls = some w) :
    w < ls.length ∧ (ls.getD w initLine).valid = true ∧
      (ls.getD w initLine).tag = t := by
  induction ls generalizing w with
  | nil => simp [findHitWay] at h
  | cons l ls ih =>
    by_cases hl : (l.valid && l.tag == t) = true
    · simp only [findHitWay, hl, if_true, Option.some.injEq] at h
      subst h
      simp only [Bool.and_eq_true, beq_iff_eq] at hl
      simpa using hl
    · rw [Bool.not_eq_true] at hl
      simp only [findHitWay, hl, Bool.false_eq_true, if_false] at h
      cases hfw : findHitWay t ls with
      | none => rw [hfw] at h; simp at h
      | some w0 =>
        rw [hfw] at h
        simp only [Option.map_some', Option.some.injEq] at h
        obtain ⟨h1, h2, h3⟩ := ih hfw
        subst h
        refine ⟨by simpa using h1, ?_, ?_⟩
        · simpa using h2
        · simpa using h3

theorem findFreeWay_eq_none {ls : List Line} :
    findFreeWay ls = none ↔ ∀ l ∈ ls, l.valid = true := by
  induction ls with
  | nil => simp [findFreeWay]
  | cons l ls ih =>
    by_cases hl : l.valid
    · simp [findFreeWay, hl, ih]
    · simp [findFreeWay, hl]

theorem findHitWay_set {t : Nat} {ls : List Line} {w : Nat} {nl : Line}
    (hnone : findHitWay t ls = none) (hw : w < ls.length)
    (hv : nl.valid = true) (ht : nl.tag = t) :
    findHitWay t (ls.set w nl) = some w := by
  induction ls generalizing w with
  | nil => simp at hw
  | cons l ls ih =>
    have hcons := findHitWay_eq_none.mp hnone
    cases w with
    | zero => simp [findHitWay, hv, ht]
    | succ n =>
      have hl : (l.valid && l.tag == t) = false := by
        rw [← Bool.not_eq_true]
        intro hc
        simp only [Bool.and_eq_true, beq_iff_eq] at hc
        exact hcons l (List.mem_cons_self l ls) hc
      have htail : findHitWay t ls = none := by
        simp only [findHitWay, hl, Bool.false_eq_true, if_false] at hnone
        cases hfw : findHitWay t ls with
        | none => rfl
        | some w0 => rw [hfw] at hnone; simp at hnone
      simp only [List.set_cons_succ, findHitWay, hl, Bool.false_eq_true,
        if_false]
      rw [ih htail (by simpa using hw)]
      rfl

theorem findHitWay_replicate_init (t n : Nat) :
    findHitWay t (List.replicate n initLine) = none := by
  rw [findHitWay_eq_none]
  intro l hl
  rw [List.eq_of_mem_replicate hl]
  simp [initLine]

theorem findFreeWay_replicate_init {n : Nat} (hn : 0 < n) :
    findFreeWay (List.replicate n initLine) = some 0 := by
  cases n with
  | zero => simp at hn
  | succ m => simp [List.replicate_succ, findFreeWay, initLine]

theorem getD_replicate {α : Type} {n i : Nat} (a d : α) (h : i < n) :
    (List.replicate n a).getD i d = a := by
  induction n generalizing i with
  | zero => simp at h
  | succ m ih =>
    cases i with
    | zero => simp [List.replicate_succ]
    | succ k =>
      simp only [List.replicate_succ, List.getD_cons_succ]
      exact ih (by omega)

theorem getD_set_self {α : Type} {xs : List α} {i : Nat} (a d : α)
    (h : i < xs.length) : (xs.set i a).getD i d = a := by
  induction xs generalizing i with
  | nil => simp at h
  | cons x xs ih =>
    cases i with
    | zero => rfl
    | succ n =>
      simp only [List.set_cons_succ, List.getD_cons_succ]
      exact ih (by simpa using h)

theorem getD_set_ne {α : Type} {xs : List α} {i j : Nat} (a d : α)
    (h : j ≠ i) : (xs.set i a).getD j d = xs.getD j d := by
  induction xs generalizing i j with
  | nil => simp
  | cons x xs ih =>
    cases i with
    | zero =>
      cases j with
      | zero => exact absurd rfl h
      | succ m => rfl
    | succ n =>
      cases j with
      | zero => rfl
      | succ m =>
        simp only [List.set_cons_succ, List.getD_cons_succ]
        exact ih (by omega)

theorem modifyIdx_set {α : Type} {xs : List α} {i : Nat} (a : α) (f : α → α)
    (h : i < xs.length) : modifyIdx i f (xs.set i a) = xs.set i (f a) := by
  induction xs generalizing i with
  | nil => simp at h
  | cons x xs ih =>
    cases i with
    | zero => rfl
    | succ n =>
      simp only [List.set_cons_succ, modifyIdx, List.cons.injEq, true_and]
      exact ih (by simpa using h)

theorem mem_of_mem_tail {α : Type} {xs : List α} {a : α} (h : a ∈ xs.tail) :
    a ∈ xs := by
  cases xs with
  | nil => simp at h
  | cons x xs => exact List.mem_cons_of_mem x h

/-! ## Address decomposition and eviction-address reconstruction -/

theorem tagOf_eq_div_div (cfg : CacheConfig) (addr : Nat) :
    tagOf cfg addr = addr / cfg.blockSize / cfg.numSets := by
  rw [tagOf, Nat.div_div_eq_div_mul]

/-- The reconstruction `(tag * Sets + set) * BlockSize` applied to the
forward decomposition of `addr` yields the block-aligned base of `addr`. -/
theorem evictAddr_eq_blockBase (cfg : CacheConfig) (addr : Nat) :
    evictAddrOf cfg (tagOf cfg addr) (setIndexOf cfg addr) =
      addr / cfg.blockSize * cfg.blockSize := by
  rw [evictAddrOf, tagOf_eq_div_div, setIndexOf, Nat.div_add_mod']

/-! ## Unfolding lemmas for Load and Store -/

theorem Load_nil (mem : MemCfg) (sts : List CacheState) (addr : Nat) :
    Load [] mem sts addr = (⟨mem.name, mem.latency⟩, [], []) := rfl

theorem Store_nil (mem : MemCfg) (sts : List CacheState) (addr : Nat) :
    Store [] mem sts addr = (⟨mem.name, mem.latency⟩, [], []) := rfl

theorem Load_hit {cfg : CacheConfig} {rest : List CacheConfig} {mem : MemCfg}
    {sts : List CacheState} {addr w : Nat}
    (h : findHitWay (tagOf cfg addr)
      ((sts.headD CacheState.empty).lines.getD (setIndexOf cfg addr) []) =
      some w) :
    Load (cfg :: rest) mem sts addr =
      (⟨cfg.name, cfg.hitLatency⟩,
       { sts.headD CacheState.empty with
          hits := (sts.headD CacheState.empty).hits + 1
          lru := modifyIdx (setIndexOf cfg addr)
            (fun o => LRUPolicy.Touch o w)
            (sts.headD CacheState.empty).lru } :: sts.tail,
       []) := by
  simp only [Load, h]

theorem Store_hit {cfg : CacheConfig} {rest : List CacheConfig} {mem : MemCfg}
    {sts : List CacheState} {addr w : Nat}
    (h : findHitWay (tagOf cfg addr)
      ((sts.headD CacheState.empty).lines.getD (setIndexOf cfg addr) []) =
      some w) :
    Store (cfg :: rest) mem sts addr =
      (⟨cfg.name, cfg.hitLatency⟩,
       { sts.headD CacheState.empty with
          hits := (sts.headD CacheState.empty).hits + 1
          lines := modifyIdx (setIndexOf cfg addr)
            (fun s => modifyIdx w (fun l => { l with dirty := true }) s)
            (sts.headD CacheState.empty).lines
          lru := modifyIdx (setIndexOf cfg addr)
            (fun o => LRUPolicy.Touch o w)
            (sts.headD CacheState.empty).lru } :: sts.tail,
       []) := by
  simp only [Store, h]

theorem Load_miss_fst {cfg : CacheConfig} {rest : List CacheConfig}
    {mem : MemCfg} {sts : List CacheState} {addr : Nat}
    (h : findHitWay (tagOf cfg addr)
      ((sts.headD CacheState.empty).lines.getD (setIndexOf cfg addr) []) =
      none) :
    (Load (cfg :: rest) mem sts addr).1 =
      ⟨(Load rest mem sts.tail addr).1.hit_level,
       (Load rest mem sts.tail addr).1.total_cycles + cfg.hitLatency⟩ := by
  simp only [Load, h]
  cases hfl : (Fill cfg { sts.headD CacheState.empty with
      misses := (sts.headD CacheState.empty).misses + 1 }
      (setIndexOf cfg addr) (tagOf cfg addr)).2 <;> simp [hfl]

theorem Store_miss_fst {cfg : CacheConfig} {rest : List CacheConfig}
    {mem : MemCfg} {sts : List CacheState} {addr : Nat}
    (h : findHitWay (tagOf cfg addr)
      ((sts.headD CacheState.empty).lines.getD (setIndexOf cfg addr) []) =
      none) :
    (Store (cfg :: rest) mem sts addr).1 =
      ⟨(Load rest mem sts.tail addr).1.hit_level,
       (Load rest mem sts.tail addr).1.total_cycles + cfg.hitLatency⟩ := by
  simp only [Store, h]
  cases hfl : (Fill cfg { sts.headD CacheState.empty with
      misses := (sts.headD CacheState.empty).misses + 1 }
      (setIndexOf cfg addr) (tagOf cfg addr)).2 <;> simp [hfl]

theorem Load_miss_topState {cfg : CacheConfig} {rest : List CacheConfig}
    {mem : MemCfg} {sts : List CacheState} {addr : Nat}
    (h : findHitWay (tagOf cfg addr)
      ((sts.headD CacheState.empty).lines.getD (setIndexOf cfg addr) []) =
      none) :
    ((Load (cfg :: rest) mem sts addr).2.1).headD CacheState.empty =
      (Fill cfg { sts.headD CacheState.empty with
        misses := (sts.headD CacheState.empty).misses + 1 }
        (setIndexOf cfg addr) (tagOf cfg addr)).1 := by
  simp only [Load, h]
  cases hfl : (Fill cfg { sts.headD CacheState.empty with
      misses := (sts.headD CacheState.empty).misses + 1 }
      (setIndexOf cfg addr) (tagOf cfg addr)).2 <;> simp [hfl]

theorem Fill_fst_lines (cfg : CacheConfig) (st2 : CacheState)
    (setIdx tag : Nat) :
    (Fill cfg st2 setIdx tag).1.lines =
      modifyIdx setIdx (fun ss => ss.set
        (chooseVictim (st2.lines.getD setIdx []) (st2.lru.getD setIdx [])).1
        ⟨true, false, tag⟩) st2.lines := rfl

theorem Fill_fst_lru (cfg : CacheConfig) (st2 : CacheState)
    (setIdx tag : Nat) :
    (Fill cfg st2 setIdx tag).1.lru =
      modifyIdx setIdx (fun o => LRUPolicy.Touch o
        (chooseVictim (st2.lines.getD setIdx [])
          (st2.lru.getD setIdx [])).1) st2.lru := rfl

theorem Fill_fst_getD (cfg : CacheConfig) (st2 : CacheState)
    (setIdx tag : Nat) (h : setIdx < st2.lines.length) :
    (Fill cfg st2 setIdx tag).1.lines.getD setIdx [] =
      (st2.lines.getD setIdx []).set
        (chooseVictim (st2.lines.getD setIdx []) (st2.lru.getD setIdx [])).1
        ⟨true, false, tag⟩ := by
  rw [Fill_fst_lines]
  exact getD_modifyIdx_self _ _ _ _ h

theorem Store_miss_topState {cfg : CacheConfig} {rest : List CacheConfig}
    {mem : MemCfg} {sts : List CacheState} {addr : Nat}
    (h : findHitWay (tagOf cfg addr)
      ((sts.headD CacheState.empty).lines.getD (setIndexOf cfg addr) []) =
      none) :
    ((Store (cfg :: rest) mem sts addr).2.1).headD CacheState.empty =
      MarkDirty (setIndexOf cfg addr) (tagOf cfg addr)
        (Fill cfg { sts.headD CacheState.empty with
          misses := (sts.headD CacheState.empty).misses + 1 }
          (setIndexOf cfg addr) (tagOf cfg addr)).1 := by
  simp only [Store, h]
  cases hfl : (Fill cfg { sts.headD CacheState.empty with
      misses := (sts.headD CacheState.empty).misses + 1 }
      (setIndexOf cfg addr) (tagOf cfg addr)).2 <;> simp [hfl]

theorem Store_miss_events {cfg : CacheConfig} {rest : List CacheConfig}
    {mem : MemCfg} {sts : List CacheState} {addr : Nat}
    (h : findHitWay (tagOf cfg addr)
      ((sts.headD CacheState.empty).lines.getD (setIndexOf cfg addr) []) =
      none) :
    ∃ evs, (Store (cfg :: rest) mem sts addr).2.2 =
      ⟨cfg.name, AccessType.kLoad, addr⟩ :: evs := by
  simp only [Store, h]
  cases hfl : (Fill cfg { sts.headD CacheState.empty with
      misses := (sts.headD CacheState.empty).misses + 1 }
      (setIndexOf cfg addr) (tagOf cfg addr)).2 <;> simp [hfl]

/-! ## Misses along the whole chain -/

/-- `missesAll cfgs sts addr` holds when the tag scan of every cache level of
the chain fails for `addr`, i.e. the access misses at every cache level and
is serviced by main memory. -/
def missesAll : List CacheConfig → List CacheState → Nat → Bool
  | [], _, _ => true
  | cfg :: rest, sts, addr =>
    (findHitWay (tagOf cfg addr)
      ((sts.headD CacheState.empty).lines.getD (setIndexOf cfg addr) [])).isNone
    && missesAll rest sts.tail addr

theorem Load_missesAll {cfgs : List CacheConfig} {mem : MemCfg}
    {sts : List CacheState} {addr : Nat}
    (h : missesAll cfgs sts addr = true) :
    (Load cfgs mem sts addr).1 = ⟨mem.name, latSum cfgs + mem.latency⟩ := by
  induction cfgs generalizing sts with
  | nil => simp [Load_nil, latSum]
  | cons cfg rest ih =>
    simp only [missesAll, Bool.and_eq_true, Option.isNone_iff_eq_none] at h
    rw [Load_miss_fst h.1, ih h.2]
    simp only [latSum, List.map_cons, List.sum_cons, AccessResult.mk.injEq,
      true_and]
    omega

theorem findHitWay_initState (cfg : CacheConfig) (t s : Nat) :
    findHitWay t ((initState cfg).lines.getD s []) = none := by
  rcases Nat.lt_or_ge s cfg.numSets with hlt | hge
  · rw [show (initState cfg).lines.getD s [] =
        List.replicate cfg.ways initLine from
        getD_replicate _ _ (by simpa [initState] using hlt)]
    exact findHitWay_replicate_init _ _
  · rw [List.getD_eq_default _ _ (by simpa [initState] using hge)]
    rfl

theorem missesAll_initStates (cfgs : List CacheConfig) (addr : Nat) :
    missesAll cfgs (initStates cfgs) addr = true := by
  induction cfgs with
  | nil => rfl
  | cons cfg rest ih =>
    simp only [missesAll, Bool.and_eq_true, Option.isNone_iff_eq_none]
    exact ⟨findHitWay_initState cfg _ _, ih⟩

/-! ## Claim theorems -/

/-- **C1.** For every 64-bit address `addr` and every cache level with
positive `Sets` and `BlockSize` parameters, the eviction-address
reconstruction `(tag * Sets + set) * BlockSize` is the exact inverse of the
forward decomposition `set = (addr / BlockSize) mod Sets`,
`tag = addr / (BlockSize * Sets)`: the reconstructed address equals the
block-aligned base of `addr`, decomposes back to the same set index and tag,
and stays below `2^64`, so the reconstruction arithmetic does not overflow a
`uint64_t`. -/
theorem reconstruction_inverts_decomposition (cfg : CacheConfig) (addr : Nat)
    (hS : 0 < cfg.numSets) (hB : 0 < cfg.blockSize) (h64 : addr < 2 ^ 64) :
    evictAddrOf cfg (tagOf cfg addr) (setIndexOf cfg addr) =
      addr / cfg.blockSize * cfg.blockSize ∧
    setIndexOf cfg (evictAddrOf cfg (tagOf cfg addr) (setIndexOf cfg addr)) =
      setIndexOf cfg addr ∧
    tagOf cfg (evictAddrOf cfg (tagOf cfg addr) (setIndexOf cfg addr)) =
      tagOf cfg addr ∧
    evictAddrOf cfg (tagOf cfg addr) (setIndexOf cfg addr) < 2 ^ 64 := by
  have hbase := evictAddr_eq_blockBase cfg addr
  have hle : addr / cfg.blockSize * cfg.blockSize ≤ addr :=
    Nat.div_mul_le_self addr cfg.blockSize
  refine ⟨hbase, ?_, ?_, ?_⟩
  · rw [hbase, setIndexOf, Nat.mul_div_cancel _ hB, setIndexOf]
  · rw [hbase, tagOf, ← Nat.div_div_eq_div_mul, Nat.mul_div_cancel _ hB,
      tagOf_eq_div_div]
  · rw [hbase]
    exact lt_of_le_of_lt hle h64

/-- Witness for C1 at Sets = 64, BlockSize = 64, addr = 123456. -/
theorem reconstruction_inverts_decomposition_witness :
    0 < (64 : Nat) ∧ (123456 : Nat) < 2 ^ 64 ∧
    (evictAddrOf ⟨"L1", 64, 4, 64, 1⟩ (tagOf ⟨"L1", 64, 4, 64, 1⟩ 123456)
        (setIndexOf ⟨"L1", 64, 4, 64, 1⟩ 123456) =
      123456 / 64 * 64 ∧
    setIndexOf ⟨"L1", 64, 4, 64, 1⟩
        (evictAddrOf ⟨"L1", 64, 4, 64, 1⟩ (tagOf ⟨"L1", 64, 4, 64, 1⟩ 123456)
          (setIndexOf ⟨"L1", 64, 4, 64, 1⟩ 123456)) =
      setIndexOf ⟨"L1", 64, 4, 64, 1⟩ 123456 ∧
    tagOf ⟨"L1", 64, 4, 64, 1⟩
        (evictAddrOf ⟨"L1", 64, 4, 64, 1⟩ (tagOf ⟨"L1", 64, 4, 64, 1⟩ 123456)
          (setIndexOf ⟨"L1", 64, 4, 64, 1⟩ 123456)) =
      tagOf ⟨"L1", 64, 4, 64, 1⟩ 123456 ∧
    evictAddrOf ⟨"L1", 64, 4, 64, 1⟩ (tagOf ⟨"L1", 64, 4, 64, 1⟩ 123456)
        (setIndexOf ⟨"L1", 64, 4, 64, 1⟩ 123456) < 2 ^ 64) :=
  ⟨by decide, by decide,
   reconstruction_inverts_decomposition ⟨"L1", 64, 4, 64, 1⟩ 123456
     (by decide) (by decide) (by decide)⟩

/-- **C9.** Whenever Fill consults the replacement policy (the boolean
component of `chooseVictim` is true, which by definition of `Fill` is the
only way `GetVictim` is reached), every way of the set is valid: the
policy is never consulted while an invalid way exists. -/
theorem getVictim_only_when_set_full (ls : List Line) (order : List Nat)
    (h : (chooseVictim ls order).2 = true) : ∀ l ∈ ls, l.valid = true := by
  unfold chooseVictim at h
  cases hf : findFreeWay ls with
  | some w => rw [hf] at h; simp at h
  | none => exact findFreeWay_eq_none.mp hf

/-- Witness for C9 on a full one-way set. -/
theorem getVictim_only_when_set_full_witness :
    (chooseVictim ([⟨true, true, 3⟩] : List Line) ([0] : List Nat)).2 = true ∧
    ∀ l ∈ ([⟨true, true, 3⟩] : List Line), l.valid = true :=
  ⟨by decide,
   getVictim_only_when_set_full ([⟨true, true, 3⟩] : List Line)
     ([0] : List Nat) (by decide)⟩

/-- **C10.** A Load that hits at the level it is issued to leaves every
line's valid, dirty and tag fields unchanged at every level of the
hierarchy: the top level keeps its `lines` matrix and its miss/eviction
counters verbatim (only its hit counter and LRU recency state change), the
states of all deeper levels are returned untouched, and no call at all is
issued to the next level. -/
theorem load_hit_frame (cfg : CacheConfig) (rest : List CacheConfig)
    (mem : MemCfg) (sts : List CacheState) (addr w : Nat)
    (h : findHitWay (tagOf cfg addr)
      ((sts.headD CacheState.empty).lines.getD (setIndexOf cfg addr) []) =
      some w) :
    (Load (cfg :: rest) mem sts addr).1 = ⟨cfg.name, cfg.hitLatency⟩ ∧
    ((Load (cfg :: rest) mem sts addr).2.1.headD CacheState.empty).lines =
      (sts.headD CacheState.empty).lines ∧
    ((Load (cfg :: rest) mem sts addr).2.1.headD CacheState.empty).misses =
      (sts.headD CacheState.empty).misses ∧
    ((Load (cfg :: rest) mem sts addr).2.1.headD CacheState.empty).evictions =
      (sts.headD CacheState.empty).evictions ∧
    ((Load (cfg :: rest) mem sts addr).2.1.headD CacheState.empty).hits =
      (sts.headD CacheState.empty).hits + 1 ∧
    (Load (cfg :: rest) mem sts addr).2.1.tail = sts.tail ∧
    (Load (cfg :: rest) mem sts addr).2.2 = [] := by
  rw [Load_hit h]
  exact ⟨rfl, rfl, rfl, rfl, rfl, rfl, rfl⟩

/-- Witness for C10: a hit on a one-line cache. -/
theorem load_hit_frame_witness :
    findHitWay (tagOf ⟨"L1", 1, 1, 4, 1⟩ 4)
      (((([⟨[[⟨true, false, 1⟩]], [[0]], 0, 0, 0⟩] :
          List CacheState)).headD CacheState.empty).lines.getD
        (setIndexOf ⟨"L1", 1, 1, 4, 1⟩ 4) []) = some 0 ∧
    (Load [⟨"L1", 1, 1, 4, 1⟩] ⟨"MainMemory", 100⟩
      [⟨[[⟨true, false, 1⟩]], [[0]], 0, 0, 0⟩] 4).1 = ⟨"L1", 1⟩ := by
  refine ⟨by decide, ?_⟩
  exact (load_hit_frame ⟨"L1", 1, 1, 4, 1⟩ [] ⟨"MainMemory", 100⟩
    [⟨[[⟨true, false, 1⟩]], [[0]], 0, 0, 0⟩] 4 0 (by decide)).1

theorem hit_level_mem_levelNames (cfgs : List CacheConfig) :
    ∀ (mem : MemCfg) (sts : List CacheState) (addr : Nat),
      (Load cfgs mem sts addr).1.hit_level ∈ levelNames cfgs mem ∧
      (Store cfgs mem sts addr).1.hit_level ∈ levelNames cfgs mem := by
  induction cfgs with
  | nil =>
    intro mem sts addr
    simp [Load_nil, Store_nil, levelNames]
  | cons cfg rest ih =>
    intro mem sts addr
    have hnames : levelNames (cfg :: rest) mem =
        cfg.name :: levelNames rest mem := by
      simp [levelNames]
    rw [hnames]
    constructor
    · cases hfh : findHitWay (tagOf cfg addr)
          ((sts.headD CacheState.empty).lines.getD (setIndexOf cfg addr) [])
          with
      | some w =>
        rw [Load_hit hfh]
        exact List.mem_cons_self _ _
      | none =>
        rw [Load_miss_fst hfh]
        exact List.mem_cons_of_mem _ (ih mem sts.tail addr).1
    · cases hfh : findHitWay (tagOf cfg addr)
          ((sts.headD CacheState.empty).lines.getD (setIndexOf cfg addr) [])
          with
      | some w =>
        rw [Store_hit hfh]
        exact List.mem_cons_self _ _
      | none =>
        rw [Store_miss_fst hfh]
        exact List.mem_cons_of_mem _ (ih mem sts.tail addr).1

/-- **C8.** For every Load or Store issued to the top of a hierarchy, the
returned `hit_level` is the configured name of a level actually present in
the chain: one of the cache level names or the main-memory name. -/
theorem hit_level_in_chain (cfgs : List CacheConfig) (mem : MemCfg)
    (sts : List CacheState) (addr : Nat) :
    (Load cfgs mem sts addr).1.hit_level ∈ levelNames cfgs mem ∧
    (Store cfgs mem sts addr).1.hit_level ∈ levelNames cfgs mem :=
  hit_level_mem_levelNames cfgs mem sts addr

/-- **C4.** Latency accumulation: an access that misses at every cache level
`L1..Lk` and is serviced by main memory returns `total_cycles` equal to the
sum of the `HitLatency` parameters of `L1..Lk` plus the main-memory latency
(and `hit_level` equal to the main-memory name); an access whose tag scan
hits at the level it reaches returns exactly that level's `HitLatency`. -/
theorem latency_accumulation (cfgs : List CacheConfig) (mem : MemCfg)
    (sts : List CacheState) (addr : Nat) :
    (missesAll cfgs sts addr = true →
      (Load cfgs mem sts addr).1 = ⟨mem.name, latSum cfgs + mem.latency⟩) ∧
    (∀ (cfg : CacheConfig) (rest : List CacheConfig) (w : Nat),
      cfgs = cfg :: rest →
      findHitWay (tagOf cfg addr)
        ((sts.headD CacheState.empty).lines.getD (setIndexOf cfg addr) []) =
        some w →
      (Load cfgs mem sts addr).1 = ⟨cfg.name, cfg.hitLatency⟩) := by
  constructor
  · exact fun h => Load_missesAll h
  · intro cfg rest w hcfgs hfh
    subst hcfgs
    rw [Load_hit hfh]

/-- Witness for C4: a two-level all-miss access accumulates 3 + 7 + 100
cycles, and a top-level hit costs exactly 3 cycles. -/
theorem latency_accumulation_witness :
    (missesAll [⟨"L1", 1, 1, 4, 3⟩, ⟨"L2", 1, 1, 4, 7⟩]
        (initStates [⟨"L1", 1, 1, 4, 3⟩, ⟨"L2", 1, 1, 4, 7⟩]) 0 = true ∧
      (Load [⟨"L1", 1, 1, 4, 3⟩, ⟨"L2", 1, 1, 4, 7⟩] ⟨"MainMemory", 100⟩
          (initStates [⟨"L1", 1, 1, 4, 3⟩, ⟨"L2", 1, 1, 4, 7⟩]) 0).1 =
        ⟨"MainMemory", 110⟩) ∧
    (findHitWay (tagOf ⟨"L1", 1, 1, 4, 3⟩ 0)
        ((([⟨[[⟨true, false, 0⟩]], [[0]], 0, 0, 0⟩] :
            List CacheState).headD CacheState.empty).lines.getD
          (setIndexOf ⟨"L1", 1, 1, 4, 3⟩ 0) []) = some 0 ∧
      (Load [⟨"L1", 1, 1, 4, 3⟩] ⟨"MainMemory", 100⟩
          [⟨[[⟨true, false, 0⟩]], [[0]], 0, 0, 0⟩] 0).1 = ⟨"L1", 3⟩) := by
  constructor
  · refine ⟨by decide, ?_⟩
    have h := (latency_accumulation [⟨"L1", 1, 1, 4, 3⟩, ⟨"L2", 1, 1, 4, 7⟩]
      ⟨"MainMemory", 100⟩
      (initStates [⟨"L1", 1, 1, 4, 3⟩, ⟨"L2", 1, 1, 4, 7⟩]) 0).1 (by decide)
    simpa [latSum] using h
  · refine ⟨by decide, ?_⟩
    exact (latency_accumulation [⟨"L1", 1, 1, 4, 3⟩] ⟨"MainMemory", 100⟩
      [⟨[[⟨true, false, 0⟩]], [[0]], 0, 0, 0⟩] 0).2 ⟨"L1", 1, 1, 4, 3⟩ [] 0
      rfl (by decide)

/-! ## Cold miss then hit (C5) -/

/-- `n` further Loads of the same address issued to the top of the chain,
returning only the final states. -/
def loadSeq (cfgs : List CacheConfig) (mem : MemCfg) (addr : Nat) :
    Nat → List CacheState → List CacheState
  | 0, sts => sts
  | n + 1, sts => loadSeq cfgs mem addr n (Load cfgs mem sts addr).2.1

theorem hit_preserved {cfg : CacheConfig} {rest : List CacheConfig}
    {mem : MemCfg} {sts : List CacheState} {addr w : Nat}
    (h : findHitWay (tagOf cfg addr)
      ((sts.headD CacheState.empty).lines.getD (setIndexOf cfg addr) []) =
      some w) :
    findHitWay (tagOf cfg addr)
      ((((Load (cfg :: rest) mem sts addr).2.1).headD
        CacheState.empty).lines.getD (setIndexOf cfg addr) []) = some w := by
  rw [Load_hit h]
  exact h

theorem first_fill_installs_tag (cfg : CacheConfig) (addr : Nat)
    (hS : 0 < cfg.numSets) (hW : 0 < cfg.ways) :
    findHitWay (tagOf cfg addr)
      ((Fill cfg { initState cfg with
          misses := (initState cfg).misses + 1 }
        (setIndexOf cfg addr) (tagOf cfg addr)).1.lines.getD
        (setIndexOf cfg addr) []) = some 0 := by
  have hs : setIndexOf cfg addr < cfg.numSets := Nat.mod_lt _ hS
  have hls : (initState cfg).lines.getD (setIndexOf cfg addr) [] =
      List.replicate cfg.ways initLine :=
    getD_replicate _ _ (by simpa [initState] using hs)
  have hfree : findFreeWay ((initState cfg).lines.getD
      (setIndexOf cfg addr) []) = some 0 := by
    rw [hls]
    exact findFreeWay_replicate_init hW
  have hvc : chooseVictim ((initState cfg).lines.getD (setIndexOf cfg addr) [])
      ((initState cfg).lru.getD (setIndexOf cfg addr) []) = (0, false) := by
    unfold chooseVictim
    rw [hfree]
  have hlen : (initState cfg).lines.length = cfg.numSets := by
    simp [initState]
  have hgoal : (Fill cfg { initState cfg with
      misses := (initState cfg).misses + 1 }
      (setIndexOf cfg addr) (tagOf cfg addr)).1.lines.getD
      (setIndexOf cfg addr) [] =
      ((initState cfg).lines.getD (setIndexOf cfg addr) []).set 0
        ⟨true, false, tagOf cfg addr⟩ := by
    simp only [Fill, hvc]
    exact getD_modifyIdx_self _ _ _ _ (by rw [hlen]; exact hs)
  rw [hgoal, hls]
  refine findHitWay_set (findHitWay_replicate_init _ _) ?_ rfl rfl
  simpa using hW

/-- **C5.** Starting from a hierarchy in its initial (all-invalid) state,
the first Load of any address misses at every cache level (its tag scan
fails everywhere) and is serviced by main memory, with fully accumulated
latency; and every immediately subsequent Load of the same address — with no
other access in between — hits at the innermost cache, returning its name
and hit latency. -/
theorem cold_miss_then_hit (cfg : CacheConfig) (rest : List CacheConfig)
    (mem : MemCfg) (addr : Nat) (hS : 0 < cfg.numSets) (hW : 0 < cfg.ways) :
    missesAll (cfg :: rest) (initStates (cfg :: rest)) addr = true ∧
    (Load (cfg :: rest) mem (initStates (cfg :: rest)) addr).1 =
      ⟨mem.name, latSum (cfg :: rest) + mem.latency⟩ ∧
    ∀ n : Nat,
      (Load (cfg :: rest) mem
        (loadSeq (cfg :: rest) mem addr n
          (Load (cfg :: rest) mem (initStates (cfg :: rest)) addr).2.1)
        addr).1 = ⟨cfg.name, cfg.hitLatency⟩ := by
  have hmissAll := missesAll_initStates (cfg :: rest) addr
  refine ⟨hmissAll, Load_missesAll hmissAll, ?_⟩
  have hmiss1 : findHitWay (tagOf cfg addr)
      (((initStates (cfg :: rest)).headD CacheState.empty).lines.getD
        (setIndexOf cfg addr) []) = none := by
    have hhead : (initStates (cfg :: rest)).headD CacheState.empty =
        initState cfg := rfl
    rw [hhead]
    exact findHitWay_initState cfg _ _
  have hhit1 : findHitWay (tagOf cfg addr)
      ((((Load (cfg :: rest) mem (initStates (cfg :: rest)) addr).2.1).headD
        CacheState.empty).lines.getD (setIndexOf cfg addr) []) = some 0 := by
    rw [Load_miss_topState hmiss1]
    exact first_fill_installs_tag cfg addr hS hW
  have main : ∀ (n : Nat) (sts1 : List CacheState),
      findHitWay (tagOf cfg addr)
        ((sts1.headD CacheState.empty).lines.getD (setIndexOf cfg addr) []) =
        some 0 →
      (Load (cfg :: rest) mem (loadSeq (cfg :: rest) mem addr n sts1)
        addr).1 = ⟨cfg.name, cfg.hitLatency⟩ := by
    intro n
    induction n with
    | zero =>
      intro sts1 h1
      rw [show loadSeq (cfg :: rest) mem addr 0 sts1 = sts1 from rfl,
        Load_hit h1]
    | succ m ih =>
      intro sts1 h1
      rw [show loadSeq (cfg :: rest) mem addr (m + 1) sts1 =
        loadSeq (cfg :: rest) mem addr m
          (Load (cfg :: rest) mem sts1 addr).2.1 from rfl]
      exact ih _ (hit_preserved h1)
  exact fun n => main n _ hhit1

/-- Witness for C5 on a one-level hierarchy, address 0. -/
theorem cold_miss_then_hit_witness :
    0 < (1 : Nat) ∧
    (missesAll [⟨"L1", 1, 1, 4, 1⟩] (initStates [⟨"L1", 1, 1, 4, 1⟩]) 0 =
        true ∧
      (Load [⟨"L1", 1, 1, 4, 1⟩] ⟨"MainMemory", 100⟩
          (initStates [⟨"L1", 1, 1, 4, 1⟩]) 0).1 =
        ⟨"MainMemory", latSum [⟨"L1", 1, 1, 4, 1⟩] + 100⟩ ∧
      ∀ n : Nat,
        (Load [⟨"L1", 1, 1, 4, 1⟩] ⟨"MainMemory", 100⟩
          (loadSeq [⟨"L1", 1, 1, 4, 1⟩] ⟨"MainMemory", 100⟩ 0 n
            (Load [⟨"L1", 1, 1, 4, 1⟩] ⟨"MainMemory", 100⟩
              (initStates [⟨"L1", 1, 1, 4, 1⟩]) 0).2.1) 0).1 = ⟨"L1", 1⟩) :=
  ⟨by decide,
   cold_miss_then_hit ⟨"L1", 1, 1, 4, 1⟩ [] ⟨"MainMemory", 100⟩ 0
     (by decide) (by decide)⟩

/-! ## Write-allocate on a store miss (C6) -/

/-- **C6.** A Store that misses at a cache level delegates a Load (not a
Store) for the same address to the next level — the first call this level
issues downward is `(Load, addr)` — adds its own hit latency to the returned
cycle count while passing the next level's `hit_level` through unchanged,
and fills the line: afterwards the tag scan of the target set finds the
victim way holding the address's tag, valid and dirty. -/
theorem store_miss_write_allocate (cfg : CacheConfig)
    (rest : List CacheConfig) (mem : MemCfg) (sts : List CacheState)
    (addr : Nat)
    (hmiss : findHitWay (tagOf cfg addr)
      ((sts.headD CacheState.empty).lines.getD (setIndexOf cfg addr) []) =
      none)
    (hsets : setIndexOf cfg addr <
      (sts.headD CacheState.empty).lines.length)
    (hvic : (chooseVictim
        ((sts.headD CacheState.empty).lines.getD (setIndexOf cfg addr) [])
        ((sts.headD CacheState.empty).lru.getD (setIndexOf cfg addr) [])).1 <
      ((sts.headD CacheState.empty).lines.getD
        (setIndexOf cfg addr) []).length) :
    (Store (cfg :: rest) mem sts addr).1 =
      ⟨(Load rest mem sts.tail addr).1.hit_level,
       (Load rest mem sts.tail addr).1.total_cycles + cfg.hitLatency⟩ ∧
    (∃ evs, (Store (cfg :: rest) mem sts addr).2.2 =
      ⟨cfg.name, AccessType.kLoad, addr⟩ :: evs) ∧
    findHitWay (tagOf cfg addr)
      ((((Store (cfg :: rest) mem sts addr).2.1).headD
          CacheState.empty).lines.getD (setIndexOf cfg addr) []) =
      some (chooseVictim
        ((sts.headD CacheState.empty).lines.getD (setIndexOf cfg addr) [])
        ((sts.headD CacheState.empty).lru.getD (setIndexOf cfg addr) [])).1 ∧
    ((((Store (cfg :: rest) mem sts addr).2.1).headD
        CacheState.empty).lines.getD (setIndexOf cfg addr) []).getD
      (chooseVictim
        ((sts.headD CacheState.empty).lines.getD (setIndexOf cfg addr) [])
        ((sts.headD CacheState.empty).lru.getD
          (setIndexOf cfg addr) [])).1 initLine =
      ⟨true, true, tagOf cfg addr⟩ := by
  refine ⟨Store_miss_fst hmiss, Store_miss_events hmiss, ?_, ?_⟩ <;>
  · rw [Store_miss_topState hmiss]
    have hfl_getD : (Fill cfg { sts.headD CacheState.empty with
        misses := (sts.headD CacheState.empty).misses + 1 }
        (setIndexOf cfg addr) (tagOf cfg addr)).1.lines.getD
        (setIndexOf cfg addr) [] =
        ((sts.headD CacheState.empty).lines.getD (setIndexOf cfg addr)
          []).set
          (chooseVictim
            ((sts.headD CacheState.empty).lines.getD (setIndexOf cfg addr)
              [])
            ((sts.headD CacheState.empty).lru.getD (setIndexOf cfg addr)
              [])).1
          ⟨true, false, tagOf cfg addr⟩ := by
      rw [Fill_fst_lines]
      exact getD_modifyIdx_self _ _ _ _ hsets
    have hfh2 : findHitWay (tagOf cfg addr)
        ((Fill cfg { sts.headD CacheState.empty with
          misses := (sts.headD CacheState.empty).misses + 1 }
          (setIndexOf cfg addr) (tagOf cfg addr)).1.lines.getD
          (setIndexOf cfg addr) []) =
        some (chooseVictim
          ((sts.headD CacheState.empty).lines.getD (setIndexOf cfg addr) [])
          ((sts.headD CacheState.empty).lru.getD
            (setIndexOf cfg addr) [])).1 := by
      rw [hfl_getD]
      exact findHitWay_set hmiss hvic rfl rfl
    have hmd : MarkDirty (setIndexOf cfg addr) (tagOf cfg addr)
        (Fill cfg { sts.headD CacheState.empty with
          misses := (sts.headD CacheState.empty).misses + 1 }
          (setIndexOf cfg addr) (tagOf cfg addr)).1 =
        { (Fill cfg { sts.headD CacheState.empty with
            misses := (sts.headD CacheState.empty).misses + 1 }
            (setIndexOf cfg addr) (tagOf cfg addr)).1 with
          lines := modifyIdx (setIndexOf cfg addr)
            (fun ss => modifyIdx
              (chooseVictim
                ((sts.headD CacheState.empty).lines.getD
                  (setIndexOf cfg addr) [])
                ((sts.headD CacheState.empty).lru.getD
                  (setIndexOf cfg addr) [])).1
              (fun l => { l with dirty := true }) ss)
            (Fill cfg { sts.headD CacheState.empty with
              misses := (sts.headD CacheState.empty).misses + 1 }
              (setIndexOf cfg addr) (tagOf cfg addr)).1.lines } := by
      unfold MarkDirty
      rw [hfh2]
    rw [hmd]
    have hlen2 : setIndexOf cfg addr <
        (Fill cfg { sts.headD CacheState.empty with
          misses := (sts.headD CacheState.empty).misses + 1 }
          (setIndexOf cfg addr) (tagOf cfg addr)).1.lines.length := by
      rw [Fill_fst_lines, modifyIdx_length]
      exact hsets
    have hfinal : (modifyIdx (setIndexOf cfg addr)
        (fun ss => modifyIdx
          (chooseVictim
            ((sts.headD CacheState.empty).lines.getD
              (setIndexOf cfg addr) [])
            ((sts.headD CacheState.empty).lru.getD
              (setIndexOf cfg addr) [])).1
          (fun l => { l with dirty := true }) ss)
        (Fill cfg { sts.headD CacheState.empty with
          misses := (sts.headD CacheState.empty).misses + 1 }
          (setIndexOf cfg addr) (tagOf cfg addr)).1.lines).getD
        (setIndexOf cfg addr) [] =
        ((sts.headD CacheState.empty).lines.getD (setIndexOf cfg addr)
          []).set
          (chooseVictim
            ((sts.headD CacheState.empty).lines.getD (setIndexOf cfg addr)
              [])
            ((sts.headD CacheState.empty).lru.getD (setIndexOf cfg addr)
              [])).1
          ⟨true, true, tagOf cfg addr⟩ := by
      rw [getD_modifyIdx_self _ _ _ _ hlen2, hfl_getD,
        modifyIdx_set _ _ hvic]
    simp only [hfinal]
    first
    | exact findHitWay_set hmiss hvic rfl rfl
    | exact getD_set_self _ _ hvic

/-- Witness for C6: a store miss on an initially-empty one-line cache. -/
theorem store_miss_write_allocate_witness :
    (Store [⟨"L1", 1, 1, 4, 1⟩] ⟨"MainMemory", 100⟩
      (initStates [⟨"L1", 1, 1, 4, 1⟩]) 4).1 = ⟨"MainMemory", 101⟩ ∧
    findHitWay (tagOf ⟨"L1", 1, 1, 4, 1⟩ 4)
      ((((Store [⟨"L1", 1, 1, 4, 1⟩] ⟨"MainMemory", 100⟩
          (initStates [⟨"L1", 1, 1, 4, 1⟩]) 4).2.1).headD
          CacheState.empty).lines.getD
        (setIndexOf ⟨"L1", 1, 1, 4, 1⟩ 4) []) = some 0 := by
  have h := store_miss_write_allocate ⟨"L1", 1, 1, 4, 1⟩ [] ⟨"MainMemory", 100⟩
    (initStates [⟨"L1", 1, 1, 4, 1⟩]) 4 (by decide) (by decide) (by decide)
  exact ⟨h.1, h.2.2.1⟩

/-! ## Write-back on dirty eviction (C2) -/

theorem Fill_snd_evict {cfg : CacheConfig} {st2 : CacheState}
    {setIdx tag tv : Nat}
    (hfull : findFreeWay (st2.lines.getD setIdx []) = none)
    (hvict : (st2.lines.getD setIdx []).getD
      (LRUPolicy.GetVictim (st2.lru.getD setIdx [])) initLine =
      ⟨true, true, tv⟩) :
    (Fill cfg st2 setIdx tag).2 = some (evictAddrOf cfg tv setIdx) := by
  simp only [Fill, chooseVictim, hfull, hvict]
  rfl

/-- **C2 (counterexample).** The claim fails for a non-block-aligned
address: with `L1` having one set, one way and block size 4, `Store(5)`
followed by the conflicting `Load(8)` evicts the dirty line and issues
exactly one write-back Store — but its target is the block base 4, not the
original address 5. -/
theorem writeback_original_address_cex :
    writeBacks "L1" (Load [⟨"L1", 1, 1, 4, 1⟩] ⟨"MainMemory", 100⟩
      (Store [⟨"L1", 1, 1, 4, 1⟩] ⟨"MainMemory", 100⟩
        (initStates [⟨"L1", 1, 1, 4, 1⟩]) 5).2.1 8).2.2 = [4] ∧
    ¬ writeBacks "L1" (Load [⟨"L1", 1, 1, 4, 1⟩] ⟨"MainMemory", 100⟩
      (Store [⟨"L1", 1, 1, 4, 1⟩] ⟨"MainMemory", 100⟩
        (initStates [⟨"L1", 1, 1, 4, 1⟩]) 5).2.1 8).2.2 = [5] := by
  constructor
  · rfl
  · decide

/-- **C2 (amended).** A dirty line holding address `A`'s tag, evicted by a
conflicting access `B` mapping to the same set, triggers exactly one
write-back Store to the next level, targeting the block-aligned base of `A`
(`A / BlockSize * BlockSize`, which equals `A` whenever `A` is
block-aligned); the write-back address is reconstructed from the victim
line's tag as it was before the line is overwritten. -/
theorem writeback_targets_block_base (cfg : CacheConfig) (mem : MemCfg)
    (st : CacheState) (A B : Nat)
    (hset : setIndexOf cfg B = setIndexOf cfg A)
    (hmiss : findHitWay (tagOf cfg B)
      (st.lines.getD (setIndexOf cfg B) []) = none)
    (hfull : findFreeWay (st.lines.getD (setIndexOf cfg B) []) = none)
    (hvict : (st.lines.getD (setIndexOf cfg B) []).getD
      (LRUPolicy.GetVictim (st.lru.getD (setIndexOf cfg B) [])) initLine =
      ⟨true, true, tagOf cfg A⟩) :
    writeBacks cfg.name (Load [cfg] mem [st] B).2.2 =
      [A / cfg.blockSize * cfg.blockSize] := by
  have hmiss1 : findHitWay (tagOf cfg B)
      ((([st] : List CacheState).headD CacheState.empty).lines.getD
        (setIndexOf cfg B) []) = none := hmiss
  have hfl : (Fill cfg { ([st] : List CacheState).headD CacheState.empty with
      misses := (([st] : List CacheState).headD CacheState.empty).misses + 1 }
      (setIndexOf cfg B) (tagOf cfg B)).2 =
      some (evictAddrOf cfg (tagOf cfg A) (setIndexOf cfg B)) :=
    Fill_snd_evict hfull hvict
  simp only [Load, hmiss1, hfl]
  simp only [writeBacks, Load_nil, Store_nil, List.nil_append,
    List.filter_cons, List.filter_nil]
  have hLS : (AccessType.kLoad == AccessType.kStore) = false := rfl
  have hSS : (AccessType.kStore == AccessType.kStore) = true := rfl
  simp only [hLS, hSS, beq_self_eq_true, Bool.true_and, Bool.and_false,
    Bool.and_true, Bool.false_eq_true, if_false, if_true, List.map_cons,
    List.map_nil, List.cons.injEq, and_true]
  rw [hset]
  exact evictAddr_eq_blockBase cfg A

/-- Witness for the amended C2: the state left by `Store(5)` on an
`L1(Sets=1, Ways=1, BlockSize=4)`, evicted by `Load(8)`, writes back
address `5 / 4 * 4 = 4`. -/
theorem writeback_targets_block_base_witness :
    writeBacks "L1" (Load [⟨"L1", 1, 1, 4, 1⟩] ⟨"MainMemory", 100⟩
      [⟨[[⟨true, true, 1⟩]], [[0]], 0, 1, 0⟩] 8).2.2 = [5 / 4 * 4] :=
  writeback_targets_block_base ⟨"L1", 1, 1, 4, 1⟩ ⟨"MainMemory", 100⟩
    ⟨[[⟨true, true, 1⟩]], [[0]], 0, 1, 0⟩ 5 8 (by decide) (by decide)
    (by decide) (by decide)

/-! ## Conflict evictions with Ways = 1 (C3) -/

/-- **C3 (counterexample).** For `Ways = 1`, `Sets = S = 2`, `BlockSize = 1`,
the addresses 0, 2, 4 are pairwise distinct and all map to set 0; the claim
says the first address's line is evicted on the `(S+1)`-th = 3rd access and
not earlier, but already the 2nd access (`Load 2`) evicts address 0's line:
after two accesses the tag scan for address 0 fails. -/
theorem capacity_law_cex :
    ((0 : Nat) ≠ 2 ∧ (0 : Nat) ≠ 4 ∧ (2 : Nat) ≠ 4) ∧
    (setIndexOf ⟨"L1", 2, 1, 1, 1⟩ 0 = 0 ∧
     setIndexOf ⟨"L1", 2, 1, 1, 1⟩ 2 = 0 ∧
     setIndexOf ⟨"L1", 2, 1, 1, 1⟩ 4 = 0) ∧
    findHitWay (tagOf ⟨"L1", 2, 1, 1, 1⟩ 0)
      ((((Load [⟨"L1", 2, 1, 1, 1⟩] ⟨"MainMemory", 100⟩
          (initStates [⟨"L1", 2, 1, 1, 1⟩]) 0).2.1).headD
          CacheState.empty).lines.getD 0 []) = some 0 ∧
    findHitWay (tagOf ⟨"L1", 2, 1, 1, 1⟩ 0)
      ((((Load [⟨"L1", 2, 1, 1, 1⟩] ⟨"MainMemory", 100⟩
          (Load [⟨"L1", 2, 1, 1, 1⟩] ⟨"MainMemory", 100⟩
            (initStates [⟨"L1", 2, 1, 1, 1⟩]) 0).2.1 2).2.1).headD
          CacheState.empty).lines.getD 0 []) = none := by
  decide

/-- **C3 (amended).** For a cache level with `Ways = 1`, the first
*conflicting* access already evicts: loading `a1` from the initial state
installs its line, and loading any `a2` with the same set index but a
different tag replaces that line on the 2nd access (so the first of `S+1`
same-set addresses is evicted on the 2nd access, which is the `(S+1)`-th
access only when `S = 1`). -/
theorem conflict_evicts_on_second_access (cfg : CacheConfig) (mem : MemCfg)
    (a1 a2 : Nat) (hW : cfg.ways = 1) (hS : 0 < cfg.numSets)
    (hset : setIndexOf cfg a2 = setIndexOf cfg a1)
    (htag : tagOf cfg a2 ≠ tagOf cfg a1) :
    (((Load [cfg] mem (initStates [cfg]) a1).2.1).headD
        CacheState.empty).lines.getD (setIndexOf cfg a1) [] =
      [⟨true, false, tagOf cfg a1⟩] ∧
    (((Load [cfg] mem
        (Load [cfg] mem (initStates [cfg]) a1).2.1 a2).2.1).headD
        CacheState.empty).lines.getD (setIndexOf cfg a1) [] =
      [⟨true, false, tagOf cfg a2⟩] := by
  have hs : setIndexOf cfg a1 < cfg.numSets := Nat.mod_lt _ hS
  have hls0 : (initState cfg).lines.getD (setIndexOf cfg a1) [] =
      [initLine] := by
    rw [show (initState cfg).lines =
      List.replicate cfg.numSets (List.replicate cfg.ways initLine)
      from rfl, getD_replicate _ _ hs, hW]
    rfl
  have hlru0 : (initState cfg).lru.getD (setIndexOf cfg a1) [] = [0] := by
    rw [show (initState cfg).lru =
      List.replicate cfg.numSets (List.range cfg.ways) from rfl,
      getD_replicate _ _ hs, hW]
    rfl
  have hmiss1 : findHitWay (tagOf cfg a1)
      (((initStates [cfg]).headD CacheState.empty).lines.getD
        (setIndexOf cfg a1) []) = none := findHitWay_initState cfg _ _
  have htop1 : ((Load [cfg] mem (initStates [cfg]) a1).2.1).headD
      CacheState.empty =
      (Fill cfg { (initStates [cfg]).headD CacheState.empty with
        misses := ((initStates [cfg]).headD CacheState.empty).misses + 1 }
        (setIndexOf cfg a1) (tagOf cfg a1)).1 := Load_miss_topState hmiss1
  have hrec1ls : ({ (initStates [cfg]).headD CacheState.empty with
      misses := ((initStates [cfg]).headD CacheState.empty).misses +
        1 }).lines.getD (setIndexOf cfg a1) [] = [initLine] := hls0
  have hrec1lru : ({ (initStates [cfg]).headD CacheState.empty with
      misses := ((initStates [cfg]).headD CacheState.empty).misses +
        1 }).lru.getD (setIndexOf cfg a1) [] = [0] := hlru0
  have hrec1len : setIndexOf cfg a1 <
      ({ (initStates [cfg]).headD CacheState.empty with
        misses := ((initStates [cfg]).headD CacheState.empty).misses +
          1 }).lines.length := by
    simpa [initStates, initState] using hs
  have hvc1 : chooseVictim [initLine] [0] = (0, false) := rfl
  have hlines1 : (((Load [cfg] mem (initStates [cfg]) a1).2.1).headD
      CacheState.empty).lines.getD (setIndexOf cfg a1) [] =
      [⟨true, false, tagOf cfg a1⟩] := by
    rw [htop1, Fill_fst_getD _ _ _ _ hrec1len, hrec1ls, hrec1lru, hvc1]
    rfl
  have hlru1 : (((Load [cfg] mem (initStates [cfg]) a1).2.1).headD
      CacheState.empty).lru.getD (setIndexOf cfg a1) [] = [0] := by
    rw [htop1, Fill_fst_lru,
      getD_modifyIdx_self _ _ _ _ (by simpa [initStates, initState] using hs),
      hrec1ls, hrec1lru, hvc1]
    rfl
  refine ⟨hlines1, ?_⟩
  have hne : (tagOf cfg a1 == tagOf cfg a2) = false := by
    rw [beq_eq_false_iff_ne]
    exact fun hcontra => htag hcontra.symm
  have hmiss2 : findHitWay (tagOf cfg a2)
      ((((Load [cfg] mem (initStates [cfg]) a1).2.1).headD
        CacheState.empty).lines.getD (setIndexOf cfg a2) []) = none := by
    rw [hset, hlines1]
    simp [findHitWay, hne]
  have htop2 : ((Load [cfg] mem
      (Load [cfg] mem (initStates [cfg]) a1).2.1 a2).2.1).headD
      CacheState.empty =
      (Fill cfg { ((Load [cfg] mem (initStates [cfg]) a1).2.1).headD
          CacheState.empty with
        misses := (((Load [cfg] mem (initStates [cfg]) a1).2.1).headD
          CacheState.empty).misses + 1 }
        (setIndexOf cfg a2) (tagOf cfg a2)).1 := Load_miss_topState hmiss2
  have hrec2ls : ({ ((Load [cfg] mem (initStates [cfg]) a1).2.1).headD
      CacheState.empty with
      misses := (((Load [cfg] mem (initStates [cfg]) a1).2.1).headD
        CacheState.empty).misses + 1 }).lines.getD
      (setIndexOf cfg a1) [] = [⟨true, false, tagOf cfg a1⟩] := hlines1
  have hrec2lru : ({ ((Load [cfg] mem (initStates [cfg]) a1).2.1).headD
      CacheState.empty with
      misses := (((Load [cfg] mem (initStates [cfg]) a1).2.1).headD
        CacheState.empty).misses + 1 }).lru.getD
      (setIndexOf cfg a1) [] = [0] := hlru1
  have hrec2len : setIndexOf cfg a1 <
      ({ ((Load [cfg] mem (initStates [cfg]) a1).2.1).headD
        CacheState.empty with
        misses := (((Load [cfg] mem (initStates [cfg]) a1).2.1).headD
          CacheState.empty).misses + 1 }).lines.length := by
    have hlen1 : (((Load [cfg] mem (initStates [cfg]) a1).2.1).headD
        CacheState.empty).lines.length = cfg.numSets := by
      rw [htop1, Fill_fst_lines, modifyIdx_length]
      simp [initStates, initState]
    show setIndexOf cfg a1 < (((Load [cfg] mem (initStates [cfg])
      a1).2.1).headD CacheState.empty).lines.length
    rw [hlen1]
    exact hs
  have hvc2 : chooseVictim [(⟨true, false, tagOf cfg a1⟩ : Line)] [0] =
      (0, true) := rfl
  rw [htop2, hset, Fill_fst_getD _ _ _ _ hrec2len, hrec2ls, hrec2lru, hvc2]
  rfl

/-- Witness for the amended C3: `Sets = 2`, addresses 0 and 2. -/
theorem conflict_evicts_on_second_access_witness :
    (((Load [⟨"L1", 2, 1, 1, 1⟩] ⟨"MainMemory", 100⟩
        (initStates [⟨"L1", 2, 1, 1, 1⟩]) 0).2.1).headD
        CacheState.empty).lines.getD
      (setIndexOf ⟨"L1", 2, 1, 1, 1⟩ 0) [] =
      [⟨true, false, tagOf ⟨"L1", 2, 1, 1, 1⟩ 0⟩] ∧
    (((Load [⟨"L1", 2, 1, 1, 1⟩] ⟨"MainMemory", 100⟩
        (Load [⟨"L1", 2, 1, 1, 1⟩] ⟨"MainMemory", 100⟩
          (initStates [⟨"L1", 2, 1, 1, 1⟩]) 0).2.1 2).2.1).headD
        CacheState.empty).lines.getD
      (setIndexOf ⟨"L1", 2, 1, 1, 1⟩ 0) [] =
      [⟨true, false, tagOf ⟨"L1", 2, 1, 1, 1⟩ 2⟩] :=
  conflict_evicts_on_second_access ⟨"L1", 2, 1, 1, 1⟩ ⟨"MainMemory", 100⟩
    0 2 (by decide) (by decide) (by decide) (by decide)

/-! ## Tag uniqueness (C7) -/

/-- Within one set, at most one line is valid with a given tag. -/
def tagUniqueSet (ls : List Line) : Prop :=
  ∀ i, i < ls.length → ∀ j, j < ls.length →
    (ls.getD i initLine).valid = true → (ls.getD j initLine).valid = true →
    (ls.getD i initLine).tag = (ls.getD j initLine).tag → i = j

instance (ls : List Line) : Decidable (tagUniqueSet ls) := by
  unfold tagUniqueSet
  infer_instance

/-- Tag uniqueness for every set of a line matrix. -/
def tagUniqueLines (lss : List (List Line)) : Prop :=
  ∀ s, s < lss.length → tagUniqueSet (lss.getD s [])

instance (lss : List (List Line)) : Decidable (tagUniqueLines lss) := by
  unfold tagUniqueLines
  infer_instance

/-- Tag uniqueness in every set of a cache level's state. -/
def tagUnique (st : CacheState) : Prop :=
  tagUniqueLines st.lines

instance (st : CacheState) : Decidable (tagUnique st) := by
  unfold tagUnique
  infer_instance

theorem getD_mem {α : Type} {xs : List α} {i : Nat} (d : α)
    (h : i < xs.length) : xs.getD i d ∈ xs := by
  induction xs generalizing i with
  | nil => simp at h
  | cons x xs ih =>
    cases i with
    | zero => exact List.mem_cons_self _ _
    | succ n =>
      simp only [List.getD_cons_succ]
      exact List.mem_cons_of_mem _ (ih (by simpa using h))

theorem set_of_length_le {α : Type} {xs : List α} {i : Nat} (a : α)
    (h : xs.length ≤ i) : xs.set i a = xs := by
  induction xs generalizing i with
  | nil => rfl
  | cons x xs ih =>
    cases i with
    | zero => simp at h
    | succ n =>
      simp only [List.set_cons_succ, List.cons.injEq, true_and]
      exact ih (by simpa using h)

theorem tagUniqueSet_congr {ls ls2 : List Line}
    (hlen : ls2.length = ls.length)
    (hvt : ∀ i, i < ls.length →
      (ls2.getD i initLine).valid = (ls.getD i initLine).valid ∧
      (ls2.getD i initLine).tag = (ls.getD i initLine).tag)
    (h : tagUniqueSet ls) : tagUniqueSet ls2 := by
  intro i hi j hj hvi hvj htij
  rw [hlen] at hi hj
  exact h i hi j hj ((hvt i hi).1 ▸ hvi) ((hvt j hj).1 ▸ hvj)
    ((hvt i hi).2 ▸ (hvt j hj).2 ▸ htij)

theorem tagUniqueSet_markDirty {ls : List Line} {w : Nat}
    (h : tagUniqueSet ls) :
    tagUniqueSet (modifyIdx w (fun l => { l with dirty := true }) ls) := by
  refine tagUniqueSet_congr (modifyIdx_length _ _ _) ?_ h
  intro i hi
  by_cases hiw : i = w
  · subst hiw
    rw [getD_modifyIdx_self _ _ _ _ hi]
    exact ⟨rfl, rfl⟩
  · rw [getD_modifyIdx_ne _ _ _ _ _ hiw]
    exact ⟨rfl, rfl⟩

theorem findHitWay_none_at {t : Nat} {ls : List Line}
    (hnone : findHitWay t ls = none) {j : Nat} (hj : j < ls.length)
    (hv : (ls.getD j initLine).valid = true) :
    (ls.getD j initLine).tag ≠ t := fun ht =>
  (findHitWay_eq_none.mp hnone _ (getD_mem initLine hj)) ⟨hv, ht⟩

theorem tagUniqueSet_set_new {ls : List Line} {w t : Nat}
    (hu : tagUniqueSet ls) (hnone : findHitWay t ls = none) :
    tagUniqueSet (ls.set w ⟨true, false, t⟩) := by
  rcases Nat.lt_or_ge w ls.length with hw | hw
  · intro i hi j hj hvi hvj ht
    rw [List.length_set] at hi hj
    by_cases hiw : i = w <;> by_cases hjw : j = w
    · rw [hiw, hjw]
    · exfalso
      subst hiw
      rw [getD_set_self _ _ hw] at ht
      rw [getD_set_ne _ _ hjw] at hvj ht
      exact findHitWay_none_at hnone hj hvj ht.symm
    · exfalso
      subst hjw
      rw [getD_set_self _ _ hw] at ht
      rw [getD_set_ne _ _ hiw] at hvi ht
      exact findHitWay_none_at hnone hi hvi ht
    · rw [getD_set_ne _ _ hiw] at hvi
      rw [getD_set_ne _ _ hjw] at hvj
      rw [getD_set_ne _ _ hiw, getD_set_ne _ _ hjw] at ht
      exact hu i hi j hj hvi hvj ht
  · rw [set_of_length_le _ hw]
    exact hu

theorem tagUniqueLines_modifyIdx {lss : List (List Line)} {s : Nat}
    {g : List Line → List Line} (hu : tagUniqueLines lss)
    (hg : tagUniqueSet (lss.getD s []) → tagUniqueSet (g (lss.getD s []))) :
    tagUniqueLines (modifyIdx s g lss) := by
  intro s2 hs2
  rw [modifyIdx_length] at hs2
  by_cases hss : s2 = s
  · subst hss
    rw [getD_modifyIdx_self _ _ _ _ hs2]
    exact hg (hu s2 hs2)
  · rw [getD_modifyIdx_ne _ _ _ _ _ hss]
    exact hu s2 hs2

theorem tagUnique_Fill {cfg : CacheConfig} {st2 : CacheState}
    {setIdx tag : Nat} (hu : tagUnique st2)
    (hnone : findHitWay tag (st2.lines.getD setIdx []) = none) :
    tagUnique (Fill cfg st2 setIdx tag).1 := by
  show tagUniqueLines (Fill cfg st2 setIdx tag).1.lines
  rw [Fill_fst_lines]
  exact tagUniqueLines_modifyIdx hu
    (fun hu2 => tagUniqueSet_set_new hu2 hnone)

theorem tagUnique_MarkDirty {setIdx tag : Nat} {st2 : CacheState}
    (hu : tagUnique st2) : tagUnique (MarkDirty setIdx tag st2) := by
  unfold MarkDirty
  cases hmd : findHitWay tag (st2.lines.getD setIdx []) with
  | none => exact hu
  | some w =>
    show tagUniqueLines (modifyIdx setIdx _ st2.lines)
    exact tagUniqueLines_modifyIdx hu (fun hu2 => tagUniqueSet_markDirty hu2)

theorem tagUnique_initState (cfg : CacheConfig) :
    tagUnique (initState cfg) := by
  intro s hs
  have hlen : (initState cfg).lines.length = cfg.numSets := by
    simp [initState]
  rw [hlen] at hs
  rw [show (initState cfg).lines =
    List.replicate cfg.numSets (List.replicate cfg.ways initLine) from rfl,
    getD_replicate _ _ hs]
  intro i hi j hj hvi
  exfalso
  rw [List.length_replicate] at hi
  rw [getD_replicate _ _ hi] at hvi
  simp [initLine] at hvi

theorem LoadStore_preserve_tagUnique (cfgs : List CacheConfig) :
    ∀ (mem : MemCfg) (sts : List CacheState) (addr : Nat),
      (∀ st ∈ sts, tagUnique st) →
      (∀ st1 ∈ (Load cfgs mem sts addr).2.1, tagUnique st1) ∧
      (∀ st1 ∈ (Store cfgs mem sts addr).2.1, tagUnique st1) := by
  induction cfgs with
  | nil =>
    intro mem sts addr _
    simp [Load_nil, Store_nil]
  | cons cfg rest ih =>
    intro mem sts addr h
    have hhead : tagUnique (sts.headD CacheState.empty) := by
      cases sts with
      | nil =>
        intro s hs
        simp [CacheState.empty] at hs
      | cons s0 srest => exact h s0 (List.mem_cons_self _ _)
    have htail : ∀ st ∈ sts.tail, tagUnique st :=
      fun st hst => h st (mem_of_mem_tail hst)
    have hfillU : findHitWay (tagOf cfg addr)
        ((sts.headD CacheState.empty).lines.getD (setIndexOf cfg addr) []) =
        none →
        tagUnique (Fill cfg { sts.headD CacheState.empty with
          misses := (sts.headD CacheState.empty).misses + 1 }
          (setIndexOf cfg addr) (tagOf cfg addr)).1 :=
      fun hfh => tagUnique_Fill hhead hfh
    constructor
    · cases hfh : findHitWay (tagOf cfg addr)
          ((sts.headD CacheState.empty).lines.getD (setIndexOf cfg addr) [])
          with
      | some w =>
        rw [Load_hit hfh]
        intro st1 hst1
        rcases List.mem_cons.mp hst1 with h1 | h1
        · subst h1
          exact hhead
        · exact htail st1 h1
      | none =>
        simp only [Load, hfh]
        cases hfl : (Fill cfg { sts.headD CacheState.empty with
            misses := (sts.headD CacheState.empty).misses + 1 }
            (setIndexOf cfg addr) (tagOf cfg addr)).2 with
        | none =>
          intro st1 hst1
          rcases List.mem_cons.mp hst1 with h1 | h1
          · subst h1
            exact hfillU hfh
          · exact (ih mem sts.tail addr htail).1 st1 h1
        | some ea =>
          intro st1 hst1
          rcases List.mem_cons.mp hst1 with h1 | h1
          · subst h1
            exact hfillU hfh
          · exact (ih mem (Load rest mem sts.tail addr).2.1 ea
              ((ih mem sts.tail addr htail).1)).2 st1 h1
    · cases hfh : findHitWay (tagOf cfg addr)
          ((sts.headD CacheState.empty).lines.getD (setIndexOf cfg addr) [])
          with
      | some w =>
        rw [Store_hit hfh]
        intro st1 hst1
        rcases List.mem_cons.mp hst1 with h1 | h1
        · subst h1
          show tagUniqueLines (modifyIdx (setIndexOf cfg addr) _
            (sts.headD CacheState.empty).lines)
          exact tagUniqueLines_modifyIdx hhead
            (fun hu2 => tagUniqueSet_markDirty hu2)
        · exact htail st1 h1
      | none =>
        simp only [Store, hfh]
        cases hfl : (Fill cfg { sts.headD CacheState.empty with
            misses := (sts.headD CacheState.empty).misses + 1 }
            (setIndexOf cfg addr) (tagOf cfg addr)).2 with
        | none =>
          intro st1 hst1
          rcases List.mem_cons.mp hst1 with h1 | h1
          · subst h1
            exact tagUnique_MarkDirty (hfillU hfh)
          · exact (ih mem sts.tail addr htail).1 st1 h1
        | some ea =>
          intro st1 hst1
          rcases List.mem_cons.mp hst1 with h1 | h1
          · subst h1
            exact tagUnique_MarkDirty (hfillU hfh)
          · exact (ih mem (Load rest mem sts.tail addr).2.1 ea
              ((ih mem sts.tail addr htail).1)).2 st1 h1

/-- **C7.** In every cache level, within any one set, at most one line is
valid with a given tag; this holds in the initial states and is preserved by
every Load and every Store issued to the hierarchy (Fill installs a tag only
after the tag scan at that level found no valid matching line). -/
theorem tag_uniqueness_invariant (cfgs : List CacheConfig) (mem : MemCfg)
    (sts : List CacheState) (addr : Nat)
    (h : ∀ st ∈ sts, tagUnique st) :
    (∀ st0 ∈ initStates cfgs, tagUnique st0) ∧
    (∀ st1 ∈ (Load cfgs mem sts addr).2.1, tagUnique st1) ∧
    (∀ st1 ∈ (Store cfgs mem sts addr).2.1, tagUnique st1) := by
  refine ⟨?_, (LoadStore_preserve_tagUnique cfgs mem sts addr h).1,
    (LoadStore_preserve_tagUnique cfgs mem sts addr h).2⟩
  intro st0 hst0
  simp only [initStates, List.mem_map] at hst0
  obtain ⟨cfg, _, hcfg⟩ := hst0
  rw [← hcfg]
  exact tagUnique_initState cfg

/-- Witness for C7: a one-level hierarchy holding one dirty line. -/
theorem tag_uniqueness_invariant_witness :
    (∀ st ∈ ([⟨[[⟨true, true, 3⟩]], [[0]], 0, 1, 0⟩] : List CacheState),
      tagUnique st) ∧
    ∀ st1 ∈ (Load [⟨"L1", 1, 1, 4, 1⟩] ⟨"MainMemory", 100⟩
      ([⟨[[⟨true, true, 3⟩]], [[0]], 0, 1, 0⟩] : List CacheState) 0).2.1,
      tagUnique st1 :=
  ⟨by decide,
   (tag_uniqueness_invariant [⟨"L1", 1, 1, 4, 1⟩] ⟨"MainMemory", 100⟩
     ([⟨[[⟨true, true, 3⟩]], [[0]], 0, 1, 0⟩] : List CacheState) 0
     (by decide)).2.1⟩

end Stratum
